import Mathlib

/-!
Shallow embedding of the `fmtsize` crate (`src/lib.rs`): human-readable
formatting of byte counts. Sizes are `u64` in the source; they are embedded
as `Nat` (the code only compares sizes against constant thresholds and
converts them to 32-bit floats, so no wrap-around arithmetic occurs).
The rendering path `size as f32 / divisor as f32` followed by a two-decimal
display is embedded by an exact model of IEEE-754 binary32 arithmetic over
integers: a nonnegative finite float is a pair of a 24-bit significand and a
power-of-two scale, conversion and division round to nearest with ties to
even, and the two-decimal display rounds the exact value of the float times
100 to the nearest integer with ties to even, which is the behavior of
fixed-precision float formatting in the standard library of the source
language.
-/

namespace Fmtsize

/-! Threshold constants, from `mod conventional` and `mod decimal`. -/

namespace conventional

def KILOBYTE : Nat := 1 <<< 10

def MEGABYTE : Nat := 1 <<< 20

def GIGABYTE : Nat := 1 <<< 30

end conventional

namespace decimal

def KILOBYTE : Nat := 1000

def MEGABYTE : Nat := 1000000

def GIGABYTE : Nat := 1000000000

end decimal

/-! The two `Format` impls. A Rust `match` with `<` guards is embedded as a
chain of conditionals. -/

namespace Conventional

def divisor (size : Nat) : Nat :=
  if size < conventional.MEGABYTE then conventional.KILOBYTE
  else if size < conventional.GIGABYTE then conventional.MEGABYTE
  else conventional.GIGABYTE

def name (size : Nat) : String :=
  if size < conventional.MEGABYTE then "KB"
  else if size < conventional.GIGABYTE then "MB"
  else "GB"

end Conventional

namespace Decimal

def divisor (size : Nat) : Nat :=
  if size < decimal.MEGABYTE then decimal.KILOBYTE
  else if size < decimal.GIGABYTE then decimal.MEGABYTE
  else decimal.GIGABYTE

/-- Mirrors the source exactly: the body of `Decimal::name` opens
`use conventional::*`, so the thresholds compared against here are the
binary ones, not the decimal ones used by `Decimal::divisor`. -/
def name (size : Nat) : String :=
  if size < conventional.MEGABYTE then "KB"
  else if size < conventional.GIGABYTE then "MB"
  else "GB"

end Decimal

/-- The two strategy types implementing the `Format` trait. -/
inductive Strategy where
  | Conventional : Strategy
  | Decimal : Strategy
deriving DecidableEq

def Strategy.divisor : Strategy → Nat → Nat
  | .Conventional, size => Fmtsize.Conventional.divisor size
  | .Decimal, size => Fmtsize.Decimal.divisor size

def Strategy.name : Strategy → Nat → String
  | .Conventional, size => Fmtsize.Conventional.name size
  | .Decimal, size => Fmtsize.Decimal.name size

/-! Exact model of the nonnegative finite fragment of IEEE-754 binary32. -/

/-- A nonnegative finite binary32 value `m * 2 ^ e` (`m = 0`, or normalized
with `2 ^ 23 ≤ m < 2 ^ 24`). -/
structure F32 where
  m : Nat
  e : Int
deriving DecidableEq

/-- Round `num / den` to the nearest integer, ties to even. -/
def rnearest (num den : Nat) : Nat :=
  let q := num / den
  let r := num % den
  if 2 * r < den then q
  else if den < 2 * r then q + 1
  else if q % 2 = 0 then q else q + 1

/-- Floor of the base-2 logarithm, by fuelled halving (`fuel = n` always
suffices). -/
def floorLog2Aux : Nat → Nat → Nat
  | 0, _ => 0
  | fuel + 1, n => if n < 2 then 0 else floorLog2Aux fuel (n / 2) + 1

def floorLog2 (n : Nat) : Nat := floorLog2Aux n n

/-- Multiply the fraction `num / den` by `2 ^ k` (`k` may be negative),
keeping numerator and denominator natural. -/
def mulPow2 (num den : Nat) (k : Int) : Nat × Nat :=
  if 0 ≤ k then (num * 2 ^ k.toNat, den) else (num, den * 2 ^ (-k).toNat)

/-- Decide `2 ^ t ≤ num / den` without leaving the naturals. -/
def gePow2 (num den : Nat) (t : Int) : Bool :=
  if 0 ≤ t then den * 2 ^ t.toNat ≤ num else den ≤ num * 2 ^ (-t).toNat

/-- Floor of the base-2 logarithm of the positive fraction `num / den`. -/
def flog2 (num den : Nat) : Int :=
  let t0 : Int := (floorLog2 num : Int) - (floorLog2 den : Int)
  if gePow2 num den t0 then t0 else t0 - 1

/-- Round the nonnegative fraction `num / den` to the nearest binary32 value
(ties to even). All values arising here are far from the subnormal and
overflow ranges, so no special cases are needed. -/
def roundF32Q (num den : Nat) : F32 :=
  if num = 0 then ⟨0, 0⟩
  else
    let e := flog2 num den - 23
    let p := mulPow2 num den (-e)
    let s := rnearest p.1 p.2
    if s = 2 ^ 24 then ⟨2 ^ 23, e + 1⟩ else ⟨s, e⟩

/-- `u64 as f32`: round to the nearest binary32 value. -/
def toF32 (n : Nat) : F32 := roundF32Q n 1

/-- Binary32 division of nonnegative finite values, divisor nonzero. -/
def f32Div (a b : F32) : F32 :=
  if a.m = 0 then ⟨0, 0⟩
  else
    let p := mulPow2 a.m b.m (a.e - b.e)
    roundF32Q p.1 p.2

/-! Decimal rendering, modelling the output of the standard formatter for
an unsigned integer and for a float under a fixed two-digit precision. -/

def digitChar (d : Nat) : Char := Char.ofNat (48 + d)

/-- Decimal digits of `n`, most significant first, by fuelled division
(`fuel = n + 1` always suffices). -/
def natDigitsAux : Nat → Nat → List Char
  | 0, _ => []
  | fuel + 1, n =>
    if n < 10 then [digitChar n]
    else natDigitsAux fuel (n / 10) ++ [digitChar (n % 10)]

def natDigitsStr (n : Nat) : String := String.mk (natDigitsAux (n + 1) n)

/-- The exact value of a nonnegative finite binary32 value times 100, rounded
to the nearest integer with ties to even. -/
def times100Round (v : F32) : Nat :=
  if 0 ≤ v.e then v.m * 100 * 2 ^ v.e.toNat
  else rnearest (v.m * 100) (2 ^ (-v.e).toNat)

/-- The two-decimal display of a nonnegative finite binary32 value: the exact
value times 100 is rounded to the nearest integer (ties to even) and printed
with the last two digits after the point. -/
def formatF32TwoDec (v : F32) : String :=
  natDigitsStr (times100Round v / 100) ++ "." ++
    String.mk [digitChar (times100Round v % 100 / 10), digitChar (times100Round v % 100 % 10)]

/-! The formatter. -/

/-- `ByteSizeFormatter`: a captured size plus a strategy. -/
structure ByteSizeFormatter where
  size : Nat
  fmt : Strategy
deriving DecidableEq

/-- The `Display` impl: `self.size as f32 / (divisor as f32)` rendered with
two fractional digits, a space, and the unit name. -/
def ByteSizeFormatter.display (x : ByteSizeFormatter) : String :=
  formatF32TwoDec (f32Div (toF32 x.size) (toF32 (x.fmt.divisor x.size))) ++ " " ++ x.fmt.name x.size

/-- `FmtSize::fmt_size` for `u64`: wrap the size and the strategy. -/
def fmt_size (size : Nat) (fmt : Strategy) : ByteSizeFormatter :=
  ⟨size, fmt⟩

/-- The quotient computed by the `Display` impl, as a binary32 value. -/
def quotF32 (x : ByteSizeFormatter) : F32 :=
  f32Div (toF32 x.size) (toF32 (x.fmt.divisor x.size))

/-- The shape of every rendered string: digits of the whole part, a point,
two fractional digit characters, a space, and the unit name. -/
theorem display_eq (x : ByteSizeFormatter) :
    x.display =
      natDigitsStr (times100Round (quotF32 x) / 100) ++ "." ++
        String.mk [digitChar (times100Round (quotF32 x) % 100 / 10),
                   digitChar (times100Round (quotF32 x) % 100 % 10)] ++ " " ++
        x.fmt.name x.size := rfl

theorem string_data_append (a b : String) : (a ++ b).data = a.data ++ b.data := rfl

theorem digitChar_isDigit (d : Nat) (hd : d < 10) : (digitChar d).isDigit = true := by
  interval_cases d <;> decide

theorem mem_natDigitsAux_isDigit :
    ∀ (fuel n : Nat), ∀ c ∈ natDigitsAux fuel n, c.isDigit = true := by
  intro fuel
  induction fuel with
  | zero => intro n c hc; simp [natDigitsAux] at hc
  | succ fuel ih =>
    intro n c hc
    simp only [natDigitsAux] at hc
    by_cases h : n < 10
    · rw [if_pos h] at hc
      simp only [List.mem_singleton] at hc
      subst hc
      exact digitChar_isDigit n h
    · rw [if_neg h] at hc
      rcases List.mem_append.mp hc with h1 | h2
      · exact ih _ c h1
      · simp only [List.mem_singleton] at h2
        subst h2
        exact digitChar_isDigit _ (Nat.mod_lt _ (by norm_num))

theorem natDigitsAux_ne_nil (fuel n : Nat) : natDigitsAux (fuel + 1) n ≠ [] := by
  simp only [natDigitsAux]
  by_cases h : n < 10
  · rw [if_pos h]; simp
  · rw [if_neg h]; simp

theorem name_mem (f : Strategy) (s : Nat) :
    f.name s = "KB" ∨ f.name s = "MB" ∨ f.name s = "GB" := by
  cases f <;> simp only [Strategy.name, Conventional.name, Decimal.name] <;>
    split_ifs <;> simp

/-- The surface form claimed for every rendered size: nonempty digit run,
a point, exactly two fractional digits, one space, and one of the three
unit labels. -/
def sizePattern (s : String) : Prop :=
  ∃ whole frac unit,
    s = whole ++ "." ++ frac ++ " " ++ unit ∧
    whole.data ≠ [] ∧
    (∀ c ∈ whole.data, c.isDigit = true) ∧
    frac.data.length = 2 ∧
    (∀ c ∈ frac.data, c.isDigit = true) ∧
    (unit = "KB" ∨ unit = "MB" ∨ unit = "GB")

end Fmtsize

namespace Fmtsize

/-- C5: rendering 1,048,576 bytes with the Conventional strategy produces
exactly the string "1.00 MB". -/
theorem conventional_megabyte_reference :
    (fmt_size 1048576 Strategy.Conventional).display = "1.00 MB" := by decide

/-- C6: rendering 492,752,310 bytes with the Conventional strategy produces
exactly the string "469.93 MB"; the quotient is taken in the exact binary32
model and printed with two fractional digits. -/
theorem conventional_large_reference :
    (fmt_size 492752310 Strategy.Conventional).display = "469.93 MB" := by decide

/-- C7: rendering 0 bytes with the Conventional strategy produces exactly
the string "0.00 KB". -/
theorem conventional_zero_reference :
    (fmt_size 0 Strategy.Conventional).display = "0.00 KB" := by decide

/-- C4: for the Conventional strategy the rendered unit label respects the
binary thresholds: 2 ^ 20 - 1 bytes end in " KB", 2 ^ 20 bytes end in
" MB", and 2 ^ 30 bytes end in " GB". -/
theorem conventional_boundary_labels :
    (∃ p, (fmt_size (2 ^ 20 - 1) Strategy.Conventional).display = p ++ " KB") ∧
    (∃ p, (fmt_size (2 ^ 20) Strategy.Conventional).display = p ++ " MB") ∧
    (∃ p, (fmt_size (2 ^ 30) Strategy.Conventional).display = p ++ " GB") :=
  ⟨⟨"1024.00", by decide⟩, ⟨"1.00", by decide⟩, ⟨"1.00", by decide⟩⟩

/-- C1: evaluation of the code at the decimal boundaries. The rendering of
999,999 bytes under Decimal does end in " KB", but 1,000,000 bytes render as
"1.00 KB" (not ending in " MB") and 1,000,000,000 bytes render as "1.00 MB"
(not ending in " GB"), because `Decimal::name` compares against the binary
thresholds. -/
theorem decimal_boundary_labels_eval :
    (∃ p, (fmt_size 999999 Strategy.Decimal).display = p ++ " KB") ∧
    (fmt_size 1000000 Strategy.Decimal).display = "1.00 KB" ∧
    (fmt_size 1000000000 Strategy.Decimal).display = "1.00 MB" :=
  ⟨⟨"1000.00", by decide⟩, by decide, by decide⟩

/-- C2: evaluation of the code at the failing input. For the Decimal
strategy at size 1,000,000 the divisor is 1,000,000 (the decimal megabyte
bucket) while the name is "KB" (the binary kilobyte bucket), so divisor and
name are not computed from the same threshold bucket. -/
theorem decimal_divisor_name_mismatch_eval :
    Strategy.divisor Strategy.Decimal 1000000 = 1000000 ∧
    Strategy.name Strategy.Decimal 1000000 = "KB" := by decide

/-- C3: for every size, the Decimal name equals the Conventional name (both
compare against the binary thresholds); in particular Decimal reports "KB"
with divisor 1,000,000 on [1,000,000, 2 ^ 20) and "MB" with divisor
1,000,000,000 on [1,000,000,000, 2 ^ 30). -/
theorem decimal_name_eq_conventional (s : Nat) :
    Decimal.name s = Conventional.name s ∧
    (1000000 ≤ s → s < 2 ^ 20 → Decimal.name s = "KB" ∧ Decimal.divisor s = 1000000) ∧
    (1000000000 ≤ s → s < 2 ^ 30 → Decimal.name s = "MB" ∧ Decimal.divisor s = 1000000000) := by
  have hm : conventional.MEGABYTE = 1048576 := rfl
  have hg : conventional.GIGABYTE = 1073741824 := rfl
  have hdm : decimal.MEGABYTE = 1000000 := rfl
  have hdg : decimal.GIGABYTE = 1000000000 := rfl
  refine ⟨rfl, ?_, ?_⟩
  · intro h1 h2
    constructor
    · simp only [Decimal.name, hm, hg]
      rw [if_pos (by omega)]
    · simp only [Decimal.divisor, hdm, hdg]
      rw [if_neg (by omega), if_pos (by omega)]
  · intro h1 h2
    constructor
    · simp only [Decimal.name, hm, hg]
      rw [if_neg (by omega), if_pos (by omega)]
    · simp only [Decimal.divisor, hdm, hdg]
      rw [if_neg (by omega), if_neg (by omega)]

/-- C3 witness: the theorem applied at size 1,000,000. -/
theorem decimal_name_eq_conventional_witness :
    Decimal.name 1000000 = "KB" ∧ Decimal.divisor 1000000 = 1000000 :=
  (decimal_name_eq_conventional 1000000).2.1 (by decide) (by decide)

/-- C8: rendering depends only on the captured size and strategy, so equal
formatters render to equal strings, any number of times. -/
theorem display_deterministic (x y : ByteSizeFormatter)
    (h1 : x.size = y.size) (h2 : x.fmt = y.fmt) : x.display = y.display := by
  cases x; cases y
  cases h1; cases h2
  rfl

/-- C8 witness: the theorem applied to two renderings of the same
formatter. -/
theorem display_deterministic_witness :
    (fmt_size 42 Strategy.Conventional).display = (fmt_size 42 Strategy.Conventional).display :=
  display_deterministic (fmt_size 42 Strategy.Conventional)
    (fmt_size 42 Strategy.Conventional) rfl rfl

/-- C9: for every u64 size and either strategy, rendering succeeds and
produces a nonempty string of the form digits, point, two fractional
digits, space, unit, with the unit one of "KB", "MB", "GB". -/
theorem display_always_pattern (s : Nat) (f : Strategy) (_hs : s < 2 ^ 64) :
    (fmt_size s f).display ≠ "" ∧ sizePattern (fmt_size s f).display := by
  have hp : sizePattern (fmt_size s f).display := by
    rw [display_eq]
    refine ⟨_, _, _, rfl, natDigitsAux_ne_nil _ _, ?_, rfl, ?_, name_mem f s⟩
    · intro c hc
      exact mem_natDigitsAux_isDigit _ _ c hc
    · intro c hc
      simp only [List.mem_cons, List.mem_singleton, List.not_mem_nil, or_false] at hc
      rcases hc with h | h <;> subst h <;> exact digitChar_isDigit _ (by omega)
  refine ⟨?_, hp⟩
  intro h0
  have hd : (fmt_size s f).display.data = [] := by
    rw [h0]
  rw [display_eq] at hd
  simp only [string_data_append] at hd
  have h1 := (List.append_eq_nil.mp hd).1
  have h2 := (List.append_eq_nil.mp h1).1
  have h3 := (List.append_eq_nil.mp h2).1
  have h4 := (List.append_eq_nil.mp h3).1
  exact natDigitsAux_ne_nil _ _ h4

/-- C9 witness: the theorem applied at size 1,048,576 with the Conventional
strategy. -/
theorem display_always_pattern_witness :
    (fmt_size 1048576 Strategy.Conventional).display ≠ "" ∧
    sizePattern (fmt_size 1048576 Strategy.Conventional).display :=
  display_always_pattern 1048576 Strategy.Conventional (by norm_num)

/-- C10: the construction operation stores its inputs unchanged: the size
field of the result is the given size and the strategy field is the given
strategy. -/
theorem fmt_size_stores_fields (s : Nat) (f : Strategy) :
    (fmt_size s f).size = s ∧ (fmt_size s f).fmt = f :=
  ⟨rfl, rfl⟩

end Fmtsize
